import Mathlib

/-!
Verification of the chart example (`examples/chart.rs`).

The program's `f64` values are modelled as real numbers (`ℝ`), `Duration`
and `Instant` as natural numbers (a count of time units, e.g. nanoseconds;
`Duration::saturating_sub` and `Instant::elapsed` are then truncated `ℕ`
subtraction), Rust `Vec` as `List`, and the fallible terminal operations of
`main` as an oracle assigning success or failure to each operation.
-/

namespace Chart

/-- The periodic signal generator: phase `x`, step `interval`, and the
`period`/`scale` of the sine wave (struct `SinSignal`). -/
structure SinSignal where
  x : ℝ
  interval : ℝ
  period : ℝ
  scale : ℝ

/-- Model of `SinSignal::new(interval, period, scale)`: phase starts at `0.0`. -/
def SinSignal.new (interval period scale : ℝ) : SinSignal :=
  { x := 0, interval := interval, period := period, scale := scale }

/-- Model of `<SinSignal as Iterator>::next`: returns
`Some((x, (x * 1.0 / period).sin() * scale))` and advances the phase by
`interval`.  The mutated iterator is returned as the second component. -/
noncomputable def SinSignal.next (s : SinSignal) : Option (ℝ × ℝ) × SinSignal :=
  (some (s.x, Real.sin (s.x * 1.0 / s.period) * s.scale),
   { s with x := s.x + s.interval })

/-- Model of `signal.by_ref().take(n).collect()`: pulls `n` items from the iterator
(stopping early on `None`, as Rust's `Take` does) and returns the collected
list together with the advanced iterator. -/
noncomputable def SinSignal.take (s : SinSignal) : ℕ → List (ℝ × ℝ) × SinSignal
  | 0 => ([], s)
  | n + 1 =>
    match s.next with
    | (some p, s2) =>
      let r := SinSignal.take s2 n
      (p :: r.1, r.2)
    | (none, s2) => ([], s2)

/-- Application state (struct `App`): two signal generators, their rolling
data windows, and the visible x-range `window` (`[f64; 2]`, modelled as a
pair). -/
structure App where
  signal1 : SinSignal
  data1 : List (ℝ × ℝ)
  signal2 : SinSignal
  data2 : List (ℝ × ℝ)
  window : ℝ × ℝ

/-- Model of `App::new()`: `signal1 = SinSignal::new(0.2, 3.0, 18.0)`,
`signal2 = SinSignal::new(0.1, 2.0, 10.0)`, each data window collects the
first 200 points of its signal, and `window = [0.0, 20.0]`. -/
noncomputable def App.new : App :=
  let t1 := (SinSignal.new 0.2 3.0 18.0).take 200
  let t2 := (SinSignal.new 0.1 2.0 10.0).take 200
  { signal1 := t1.2
    data1 := t1.1
    signal2 := t2.2
    data2 := t2.1
    window := (0.0, 20.0) }

/-- Model of `App::on_tick`: `data1.drain(0..5)` then extend with 5 fresh points from
`signal1`; `data2.drain(0..10)` then extend with 10 fresh points from
`signal2`; both `window` endpoints advance by `1.0`. -/
noncomputable def App.on_tick (a : App) : App :=
  let t1 := a.signal1.take 5
  let t2 := a.signal2.take 10
  { signal1 := t1.2
    data1 := a.data1.drop 5 ++ t1.1
    signal2 := t2.2
    data2 := a.data2.drop 10 ++ t2.1
    window := (a.window.1 + 1.0, a.window.2 + 1.0) }

/-- The state after `k` ticks starting from `App::new()`. -/
noncomputable def appAfter : ℕ → App
  | 0 => App.new
  | k + 1 => (appAfter k).on_tick

/-- The arithmetic progression `a, a + d, a + 2d, …` of length `n`; the shape
of the x-coordinates produced by a `SinSignal`. -/
def aprog (a d : ℝ) : ℕ → List ℝ
  | 0 => []
  | n + 1 => a :: aprog (a + d) d n

theorem aprog_length (a d : ℝ) (n : ℕ) : (aprog a d n).length = n := by
  induction n generalizing a with
  | zero => rfl
  | succ n ih => simp [aprog, ih]

theorem aprog_append (d : ℝ) (m n : ℕ) (a : ℝ) :
    aprog a d (m + n) = aprog a d m ++ aprog (a + m * d) d n := by
  induction m generalizing a with
  | zero => simp [aprog]
  | succ m ih =>
    have : m + 1 + n = (m + n) + 1 := by omega
    rw [this]
    simp only [aprog, ih (a + d), List.cons_append]
    congr 2
    push_cast
    ring_nf

theorem aprog_drop (d : ℝ) (m n : ℕ) (a : ℝ) (h : m ≤ n) :
    (aprog a d n).drop m = aprog (a + m * d) d (n - m) := by
  have hn : n = m + (n - m) := by omega
  rw [hn, aprog_append d m (n - m) a, List.drop_append_of_le_length, List.drop_of_length_le]
  · simp
  · simp [aprog_length]
  · simp [aprog_length]

theorem aprog_chain (a d : ℝ) (n : ℕ) :
    (aprog a d n).Chain' (fun u v => v = u + d) := by
  induction n generalizing a with
  | zero => simp [aprog]
  | succ n ih =>
    cases n with
    | zero => simp [aprog]
    | succ m =>
      rw [aprog, aprog]
      exact List.Chain'.cons rfl (by rw [← aprog] ; exact ih (a + d))

theorem aprog_pairwise_lt (a d : ℝ) (n : ℕ) (hd : 0 < d) :
    (aprog a d n).Pairwise (· < ·) := by
  induction n generalizing a with
  | zero => simp [aprog]
  | succ n ih =>
    rw [aprog, List.pairwise_cons]
    refine ⟨?_, ih (a + d)⟩
    intro b hb
    have key : ∀ k c, b ∈ aprog c d k → c ≤ b := by
      intro k
      induction k with
      | zero => intro c hc; simp [aprog] at hc
      | succ k ihk =>
        intro c hc
        rw [aprog, List.mem_cons] at hc
        rcases hc with rfl | hc
        · exact le_refl b
        · have := ihk _ hc
          linarith
    have := key n (a + d) hb
    linarith

/-- The x-coordinates of `s.take n` form an arithmetic progression starting
at the current phase with step `interval`. -/
theorem take_map_fst (n : ℕ) (s : SinSignal) :
    ((s.take n).1).map Prod.fst = aprog s.x s.interval n := by
  induction n generalizing s with
  | zero => rfl
  | succ n ih =>
    simp only [SinSignal.take, SinSignal.next, List.map_cons, aprog]
    rw [ih]

/-- Taking `n` points advances the phase by `n * interval` and leaves the signal's
parameters unchanged. -/
theorem take_snd (n : ℕ) (s : SinSignal) :
    (s.take n).2 = { s with x := s.x + n * s.interval } := by
  induction n generalizing s with
  | zero => simp [SinSignal.take]
  | succ n ih =>
    simp only [SinSignal.take, SinSignal.next]
    rw [ih]
    congr 1
    push_cast
    ring_nf

theorem take_length (n : ℕ) (s : SinSignal) : ((s.take n).1).length = n := by
  have := congrArg List.length (take_map_fst n s)
  simpa [aprog_length] using this

theorem take_x (n : ℕ) (s : SinSignal) :
    ((s.take n).2).x = s.x + n * s.interval := by rw [take_snd]

theorem take_interval (n : ℕ) (s : SinSignal) :
    ((s.take n).2).interval = s.interval := by rw [take_snd]

theorem take_period (n : ℕ) (s : SinSignal) :
    ((s.take n).2).period = s.period := by rw [take_snd]

theorem take_scale (n : ℕ) (s : SinSignal) :
    ((s.take n).2).scale = s.scale := by rw [take_snd]

/-- One tick of a rolling window: dropping the 5 oldest of 200 points of an
arithmetic progression with step `0.2` and appending the next 5 shifts the
progression's start by `1`. -/
theorem roll1 (c : ℝ) :
    (aprog c 0.2 200).drop 5 ++ aprog (c + 40) 0.2 5 = aprog (c + 1) 0.2 200 := by
  rw [aprog_drop 0.2 5 200 c (by norm_num)]
  rw [show (200 : ℕ) - 5 = 195 from rfl]
  rw [show (200 : ℕ) = 195 + 5 from rfl, aprog_append]
  have h1 : c + ((5 : ℕ) : ℝ) * 0.2 = c + 1 := by push_cast; norm_num
  have h2 : c + 1 + ((195 : ℕ) : ℝ) * 0.2 = c + 40 := by push_cast; norm_num [add_assoc]
  rw [h1, h2]

/-- One tick of the second rolling window: dropping the 10 oldest of 200
points of a step-`0.1` progression and appending the next 10 shifts the
start by `1`. -/
theorem roll2 (c : ℝ) :
    (aprog c 0.1 200).drop 10 ++ aprog (c + 20) 0.1 10 = aprog (c + 1) 0.1 200 := by
  rw [aprog_drop 0.1 10 200 c (by norm_num)]
  rw [show (200 : ℕ) - 10 = 190 from rfl]
  rw [show (200 : ℕ) = 190 + 10 from rfl, aprog_append]
  have h1 : c + ((10 : ℕ) : ℝ) * 0.1 = c + 1 := by push_cast; norm_num
  have h2 : c + 1 + ((190 : ℕ) : ℝ) * 0.1 = c + 20 := by push_cast; norm_num [add_assoc]
  rw [h1, h2]

/-- Invariant of the reachable application states: after `k` ticks the data
windows hold the 200 points with x-coordinates `k, k + step, …` (step `0.2`
for `data1`, `0.1` for `data2`), the signals sit at phases `k + 40` and
`k + 20`, and the visible x-range is `[k, 20 + k]`. -/
def AppInv (k : ℕ) (a : App) : Prop :=
  a.data1.map Prod.fst = aprog (k : ℝ) 0.2 200 ∧
  a.data2.map Prod.fst = aprog (k : ℝ) 0.1 200 ∧
  a.signal1.x = (k : ℝ) + 40 ∧ a.signal1.interval = 0.2 ∧
  a.signal2.x = (k : ℝ) + 20 ∧ a.signal2.interval = 0.1 ∧
  a.window = ((k : ℝ), 20 + (k : ℝ))

theorem appAfter_inv (k : ℕ) : AppInv k (appAfter k) := by
  induction k with
  | zero =>
    refine ⟨?_, ?_, ?_, ?_, ?_, ?_, ?_⟩
    · show (App.new).data1.map Prod.fst = _
      simp only [App.new]
      rw [take_map_fst]
      norm_num [SinSignal.new]
    · show (App.new).data2.map Prod.fst = _
      simp only [App.new]
      rw [take_map_fst]
      norm_num [SinSignal.new]
    · show ((App.new).signal1).x = _
      simp only [App.new]
      rw [take_x]
      norm_num [SinSignal.new]
    · show ((App.new).signal1).interval = _
      simp only [App.new]
      rw [take_interval]
      rfl
    · show ((App.new).signal2).x = _
      simp only [App.new]
      rw [take_x]
      norm_num [SinSignal.new]
    · show ((App.new).signal2).interval = _
      simp only [App.new]
      rw [take_interval]
      rfl
    · show (App.new).window = _
      simp only [App.new]
      norm_num
  | succ k ih =>
    obtain ⟨h1, h2, hx1, hi1, hx2, hi2, hw⟩ := ih
    have cast1 : ((k + 1 : ℕ) : ℝ) = (k : ℝ) + 1 := by push_cast; ring
    refine ⟨?_, ?_, ?_, ?_, ?_, ?_, ?_⟩
    · show ((appAfter k).data1.drop 5 ++ (((appAfter k).signal1).take 5).1).map Prod.fst = _
      rw [List.map_append, List.map_drop, h1, take_map_fst, hx1, hi1, cast1]
      exact roll1 (k : ℝ)
    · show ((appAfter k).data2.drop 10 ++ (((appAfter k).signal2).take 10).1).map Prod.fst = _
      rw [List.map_append, List.map_drop, h2, take_map_fst, hx2, hi2, cast1]
      exact roll2 (k : ℝ)
    · show ((((appAfter k).signal1).take 5).2).x = _
      rw [take_x, hx1, hi1, cast1]
      push_cast
      ring
    · show ((((appAfter k).signal1).take 5).2).interval = _
      rw [take_interval, hi1]
    · show ((((appAfter k).signal2).take 10).2).x = _
      rw [take_x, hx2, hi2, cast1]
      push_cast
      ring
    · show ((((appAfter k).signal2).take 10).2).interval = _
      rw [take_interval, hi2]
    · show ((appAfter k).window.1 + 1.0, (appAfter k).window.2 + 1.0) = _
      rw [hw, cast1]
      norm_num
      ring_nf

/-- C4: `SinSignal` is a lazy infinite sequence: `next` always returns `Some`
pair, the pair is `(x, sin(x / period) * scale)` for the current phase `x`,
each call advances the phase by exactly `interval` (leaving the other fields
unchanged), a positive step only ever moves the phase forward, and a freshly
constructed signal starts at phase `0.0`. -/
theorem sinSignal_next_spec (s : SinSignal) (i p c : ℝ) (h : 0 < s.interval) :
    (s.next).1 = some (s.x, Real.sin (s.x / s.period) * s.scale) ∧
    (s.next).2 = { s with x := s.x + s.interval } ∧
    s.x < (s.next).2.x ∧
    (SinSignal.new i p c).x = 0 := by
  refine ⟨?_, rfl, ?_, rfl⟩
  · simp only [SinSignal.next]
    norm_num
  · simp only [SinSignal.next]
    exact lt_add_of_pos_right s.x h

/-- Witness for C4 at the program's `signal1 = SinSignal::new(0.2, 3.0, 18.0)`. -/
theorem sinSignal_next_spec_witness :
    0 < (SinSignal.new 0.2 3.0 18.0).interval ∧
    (((SinSignal.new 0.2 3.0 18.0).next).1 =
      some ((SinSignal.new 0.2 3.0 18.0).x,
        Real.sin ((SinSignal.new 0.2 3.0 18.0).x / (SinSignal.new 0.2 3.0 18.0).period) *
          (SinSignal.new 0.2 3.0 18.0).scale) ∧
    ((SinSignal.new 0.2 3.0 18.0).next).2 =
      { SinSignal.new 0.2 3.0 18.0 with
          x := (SinSignal.new 0.2 3.0 18.0).x + (SinSignal.new 0.2 3.0 18.0).interval } ∧
    (SinSignal.new 0.2 3.0 18.0).x < (((SinSignal.new 0.2 3.0 18.0).next).2).x ∧
    (SinSignal.new 1 1 1).x = 0) :=
  ⟨by norm_num [SinSignal.new], sinSignal_next_spec (SinSignal.new 0.2 3.0 18.0) 1 1 1
    (by norm_num [SinSignal.new])⟩

/-- C2: the visible x-range starts at `window = [0.0, 20.0]`, every `on_tick`
adds exactly `1.0` to both endpoints, after 20 ticks `window = [20.0, 40.0]`,
and after any number of ticks `window[0] < window[1]`. -/
theorem window_spec :
    App.new.window = (0, 20) ∧
    (∀ a : App, a.on_tick.window = (a.window.1 + 1, a.window.2 + 1)) ∧
    (appAfter 20).window = (20, 40) ∧
    ∀ k : ℕ, (appAfter k).window.1 < (appAfter k).window.2 := by
  refine ⟨?_, ?_, ?_, ?_⟩
  · have h := (appAfter_inv 0).2.2.2.2.2.2
    norm_num at h
    exact h
  · intro a
    show (a.window.1 + 1.0, a.window.2 + 1.0) = _
    norm_num
  · have h := (appAfter_inv 20).2.2.2.2.2.2
    norm_num at h
    exact h
  · intro k
    have h := (appAfter_inv k).2.2.2.2.2.2
    rw [h]
    simp only
    linarith [Nat.cast_nonneg (α := ℝ) k]

/-- C3: both rolling windows keep a constant length: `App::new` fills each
with exactly 200 points, each `take` of `n` fresh points yields exactly `n`
points, and after any number of ticks both windows still hold 200 points. -/
theorem data_length_spec :
    App.new.data1.length = 200 ∧ App.new.data2.length = 200 ∧
    (∀ (s : SinSignal) (n : ℕ), ((s.take n).1).length = n) ∧
    ∀ k : ℕ, (appAfter k).data1.length = 200 ∧ (appAfter k).data2.length = 200 := by
  have key : ∀ k : ℕ, (appAfter k).data1.length = 200 ∧ (appAfter k).data2.length = 200 := by
    intro k
    obtain ⟨h1, h2, -⟩ := appAfter_inv k
    constructor
    · have := congrArg List.length h1
      simpa [aprog_length] using this
    · have := congrArg List.length h2
      simpa [aprog_length] using this
  exact ⟨(key 0).1, (key 0).2, fun s n => take_length n s, key⟩

/-- C8: in every state reachable from `App::new` by `on_tick` calls, `data1`
holds at least 5 points and `data2` at least 10, so the drains
`drain(0..5)` and `drain(0..10)` performed by the next `on_tick` are in
bounds. -/
theorem drain_in_bounds (k : ℕ) :
    5 ≤ (appAfter k).data1.length ∧ 10 ≤ (appAfter k).data2.length := by
  obtain ⟨h1, h2, -⟩ := appAfter_inv k
  constructor
  · have := congrArg List.length h1
    simp [aprog_length] at this
    omega
  · have := congrArg List.length h2
    simp [aprog_length] at this
    omega

/-- C9: in every reachable state the x-coordinates of `data1` advance by
exactly `0.2` from one point to the next and are strictly increasing, and
likewise for `data2` with step `0.1`. -/
theorem data_x_strict_mono (k : ℕ) :
    ((appAfter k).data1.map Prod.fst).Chain' (fun u v => v = u + 0.2) ∧
    ((appAfter k).data1.map Prod.fst).Pairwise (· < ·) ∧
    ((appAfter k).data2.map Prod.fst).Chain' (fun u v => v = u + 0.1) ∧
    ((appAfter k).data2.map Prod.fst).Pairwise (· < ·) := by
  obtain ⟨h1, h2, -⟩ := appAfter_inv k
  rw [h1, h2]
  exact ⟨aprog_chain _ _ _, aprog_pairwise_lt _ _ _ (by norm_num),
    aprog_chain _ _ _, aprog_pairwise_lt _ _ _ (by norm_num)⟩

/-- Model of crossterm's `KeyCode`: the loop only distinguishes `Char`
variants; every other variant collapses to an opaque tag. -/
inductive KeyCode where
  | Char (c : Char)
  | otherKey (tag : ℕ)
  deriving DecidableEq

/-- Model of crossterm's `KeyEvent`: the loop only inspects `code`. -/
structure KeyEvent where
  code : KeyCode
  deriving DecidableEq

/-- Model of crossterm's `Event`: key events versus every other event kind. -/
inductive Event where
  | Key (k : KeyEvent)
  | otherEvent (tag : ℕ)
  deriving DecidableEq

/-- Model of `Duration::saturating_sub` on durations as `ℕ` time units
(truncated subtraction). -/
def saturating_sub (a b : ℕ) : ℕ := a - b

/-- The poll timeout computed by each `run_app` iteration:
`tick_rate.saturating_sub(last_tick.elapsed())`. -/
def pollTimeout (tick_rate elapsed : ℕ) : ℕ := saturating_sub tick_rate elapsed

/-- The quit test of `run_app`: the polled event (if any) is a key event
whose code is `KeyCode::Char('q')`. -/
def isQuitEvent : Option Event → Bool
  | some (Event.Key k) => k.code == KeyCode.Char 'q'
  | _ => false

/-- The loop-carried state of `run_app`: the app and the `last_tick`
instant (an `ℕ` timestamp). -/
structure LoopState where
  app : App
  last_tick : ℕ

/-- Observable actions of one loop iteration: the render at the top of the
body, an `on_tick` call, and returning from `run_app`. -/
inductive Action where
  | render
  | tick
  | exited
  deriving DecidableEq

/-- Model of one iteration of the `run_app` loop body: draw, wait for an
event (`ev = none` means the poll timed out), return on the quit key, and
otherwise call `on_tick` and reset `last_tick` exactly when the elapsed
time `now - last_tick` has reached `tick_rate`.  Returns the actions the
iteration performed and `none` when `run_app` returned. -/
noncomputable def runAppIter (tick_rate : ℕ) (s : LoopState) (ev : Option Event) (now : ℕ) :
    List Action × Option LoopState :=
  if isQuitEvent ev then ([Action.render, Action.exited], none)
  else if tick_rate ≤ now - s.last_tick then
    ([Action.render, Action.tick], some ⟨s.app.on_tick, now⟩)
  else ([Action.render], some ⟨s.app, s.last_tick⟩)

/-- Model of `run_app`, driven by a finite schedule of iterations, each an
awaited event (or poll timeout) together with the instant observed after
the wait.  Produces the concatenated action trace and the final state
(`none` when the loop returned). -/
noncomputable def run_app (tick_rate : ℕ) :
    LoopState → List (Option Event × ℕ) → List Action × Option LoopState
  | s, [] => ([], some s)
  | s, (ev, now) :: rest =>
    match runAppIter tick_rate s ev now with
    | (acts, none) => (acts, none)
    | (acts, some s2) =>
      let r := run_app tick_rate s2 rest
      (acts ++ r.1, r.2)

/-- C1: a quit-key event makes the loop return immediately — no `on_tick`
in that iteration, no continuation state, and no further action after the
already-performed render, whatever the remaining schedule and however much
of the tick timeout remained; any other awaited outcome neither exits the
loop nor stops it from proceeding to the next iteration. -/
theorem quit_spec (tick_rate : ℕ) (s : LoopState) (ev : Option Event) (now : ℕ) :
    (isQuitEvent ev = true →
      runAppIter tick_rate s ev now = ([Action.render, Action.exited], none) ∧
      Action.tick ∉ (runAppIter tick_rate s ev now).1 ∧
      ∀ rest, run_app tick_rate s ((ev, now) :: rest) =
        ([Action.render, Action.exited], none)) ∧
    (isQuitEvent ev = false →
      Action.exited ∉ (runAppIter tick_rate s ev now).1 ∧
      ∃ s2, (runAppIter tick_rate s ev now).2 = some s2 ∧
        ∀ rest, run_app tick_rate s ((ev, now) :: rest) =
          ((runAppIter tick_rate s ev now).1 ++ (run_app tick_rate s2 rest).1,
            (run_app tick_rate s2 rest).2)) := by
  constructor
  · intro hq
    have hiter : runAppIter tick_rate s ev now = ([Action.render, Action.exited], none) := by
      simp [runAppIter, hq]
    refine ⟨hiter, by rw [hiter]; simp, fun rest => ?_⟩
    rw [run_app, hiter]
  · intro hq
    by_cases hd : tick_rate ≤ now - s.last_tick
    · have hiter : runAppIter tick_rate s ev now =
          ([Action.render, Action.tick], some ⟨s.app.on_tick, now⟩) := by
        simp [runAppIter, hq, hd]
      refine ⟨by rw [hiter]; simp, ⟨s.app.on_tick, now⟩, by rw [hiter], fun rest => ?_⟩
      rw [run_app, hiter]
    · have hiter : runAppIter tick_rate s ev now =
          ([Action.render], some ⟨s.app, s.last_tick⟩) := by
        simp [runAppIter, hq, hd]
      refine ⟨by rw [hiter]; simp, ⟨s.app, s.last_tick⟩, by rw [hiter], fun rest => ?_⟩
      rw [run_app, hiter]

/-- Witness for C1: the quit branch at the event `Key(Char('q'))` and the
non-exit branch at a poll timeout. -/
theorem quit_spec_witness :
    isQuitEvent (some (Event.Key ⟨KeyCode.Char 'q'⟩)) = true ∧
    runAppIter 250 ⟨App.new, 0⟩ (some (Event.Key ⟨KeyCode.Char 'q'⟩)) 100 =
      ([Action.render, Action.exited], none) ∧
    isQuitEvent none = false ∧
    Action.exited ∉ (runAppIter 250 ⟨App.new, 0⟩ none 100).1 :=
  ⟨by decide,
   ((quit_spec 250 ⟨App.new, 0⟩ (some (Event.Key ⟨KeyCode.Char 'q'⟩)) 100).1 (by decide)).1,
   by decide,
   ((quit_spec 250 ⟨App.new, 0⟩ none 100).2 (by decide)).1⟩

/-- C5: the poll timeout is `tick_rate` minus the elapsed time, saturating
at zero: it equals `t - e` whenever `e ≤ t`, is exactly zero whenever
`e > t`, and is never negative. -/
theorem pollTimeout_spec (t e : ℕ) :
    (e ≤ t → (pollTimeout t e : ℤ) = (t : ℤ) - (e : ℤ)) ∧
    (t < e → pollTimeout t e = 0) ∧
    0 ≤ (pollTimeout t e : ℤ) := by
  unfold pollTimeout saturating_sub
  refine ⟨fun h => ?_, fun h => ?_, ?_⟩ <;> omega

/-- Witness for C5 at `t = 250` with `e = 100` (time remaining) and
`e = 300` (deadline already passed). -/
theorem pollTimeout_spec_witness :
    (pollTimeout 250 100 : ℤ) = (250 : ℤ) - (100 : ℤ) ∧ pollTimeout 250 300 = 0 :=
  ⟨(pollTimeout_spec 250 100).1 (by decide), (pollTimeout_spec 250 300).2.1 (by decide)⟩

/-- C6: in a non-quit iteration, `on_tick` runs exactly when the elapsed
time since `last_tick` has reached `tick_rate` — independently of whether
an event arrived — and when it runs, `last_tick` is reset to the current
instant; otherwise the state is unchanged. -/
theorem tick_deadline_spec (tick_rate : ℕ) (s : LoopState) (ev : Option Event) (now : ℕ)
    (hq : isQuitEvent ev = false) :
    (Action.tick ∈ (runAppIter tick_rate s ev now).1 ↔ tick_rate ≤ now - s.last_tick) ∧
    (tick_rate ≤ now - s.last_tick →
      (runAppIter tick_rate s ev now).2 = some ⟨s.app.on_tick, now⟩) ∧
    (¬ tick_rate ≤ now - s.last_tick →
      (runAppIter tick_rate s ev now).2 = some ⟨s.app, s.last_tick⟩) := by
  by_cases hd : tick_rate ≤ now - s.last_tick
  · have hiter : runAppIter tick_rate s ev now =
        ([Action.render, Action.tick], some ⟨s.app.on_tick, now⟩) := by
      simp [runAppIter, hq, hd]
    rw [hiter]
    simp [hd]
  · have hiter : runAppIter tick_rate s ev now =
        ([Action.render], some ⟨s.app, s.last_tick⟩) := by
      simp [runAppIter, hq, hd]
    rw [hiter]
    simp [hd]

/-- Witness for C6: a poll timeout with the deadline just reached
(`tick_rate = 250`, `last_tick = 0`, `now = 250`). -/
theorem tick_deadline_spec_witness :
    isQuitEvent none = false ∧
    (Action.tick ∈ (runAppIter 250 ⟨App.new, 0⟩ none 250).1 ↔ (250 : ℕ) ≤ 250 - 0) ∧
    (runAppIter 250 ⟨App.new, 0⟩ none 250).2 = some ⟨App.new.on_tick, 250⟩ :=
  ⟨by decide,
   (tick_deadline_spec 250 ⟨App.new, 0⟩ none 250 (by decide)).1,
   (tick_deadline_spec 250 ⟨App.new, 0⟩ none 250 (by decide)).2.1 (by decide)⟩

/-- The fallible terminal operations performed by `main`, in program order:
`enable_raw_mode()`, `execute!(stdout, EnterAlternateScreen, EnableMouseCapture)`,
`Terminal::new(backend)`, `disable_raw_mode()`,
`execute!(…, LeaveAlternateScreen, DisableMouseCapture)`, and
`terminal.show_cursor()`. -/
inductive TermOp where
  | enableRawMode
  | enterAltScreenMouse
  | terminalNew
  | disableRawMode
  | leaveAltScreenMouse
  | showCursor
  deriving DecidableEq

/-- Observable events of a `main` execution: a terminal operation was
attempted, `run_app` was called, or the loop's error was printed. -/
inductive MainEv where
  | op (o : TermOp)
  | ranApp
  | printedErr
  deriving DecidableEq

/-- Model of `main`: `ok` is an oracle giving each fallible terminal
operation's outcome (`true` = `Ok`), and `res` is the result `run_app`
would return.  Each `?` returns the error immediately (skipping everything
after it); the trace records the attempted operations in order.  Returns
the trace and `main`'s result, whose error (if any) is the operation that
failed. -/
def main (ok : TermOp → Bool) (res : Except ℕ Unit) : List MainEv × Except TermOp Unit :=
  let t := [MainEv.op TermOp.enableRawMode]
  if !ok TermOp.enableRawMode then (t, Except.error TermOp.enableRawMode) else
  let t := t ++ [MainEv.op TermOp.enterAltScreenMouse]
  if !ok TermOp.enterAltScreenMouse then (t, Except.error TermOp.enterAltScreenMouse) else
  let t := t ++ [MainEv.op TermOp.terminalNew]
  if !ok TermOp.terminalNew then (t, Except.error TermOp.terminalNew) else
  let t := t ++ [MainEv.ranApp]
  let t := t ++ [MainEv.op TermOp.disableRawMode]
  if !ok TermOp.disableRawMode then (t, Except.error TermOp.disableRawMode) else
  let t := t ++ [MainEv.op TermOp.leaveAltScreenMouse]
  if !ok TermOp.leaveAltScreenMouse then (t, Except.error TermOp.leaveAltScreenMouse) else
  let t := t ++ [MainEv.op TermOp.showCursor]
  if !ok TermOp.showCursor then (t, Except.error TermOp.showCursor) else
  match res with
  | Except.error _ => (t ++ [MainEv.printedErr], Except.ok ())
  | Except.ok _ => (t, Except.ok ())

/-- C7 (counterexample): if `execute!(EnterAlternateScreen, …)` fails after
`enable_raw_mode()` succeeded, `main` returns the error without attempting
any restoration step — raw mode was acquired but `disable_raw_mode` never
runs, refuting guaranteed restoration on every exit path. -/
theorem main_restore_counterexample :
    (main (fun o => !(o == TermOp.enterAltScreenMouse)) (Except.ok ())).2 =
      Except.error TermOp.enterAltScreenMouse ∧
    MainEv.op TermOp.enableRawMode ∈
      (main (fun o => !(o == TermOp.enterAltScreenMouse)) (Except.ok ())).1 ∧
    MainEv.op TermOp.disableRawMode ∉
      (main (fun o => !(o == TermOp.enterAltScreenMouse)) (Except.ok ())).1 ∧
    MainEv.op TermOp.leaveAltScreenMouse ∉
      (main (fun o => !(o == TermOp.enterAltScreenMouse)) (Except.ok ())).1 := by
  refine ⟨rfl, by decide, by decide, by decide⟩

/-- C7 (amended): on the exit paths where terminal setup succeeded — normal
quit and an event-loop error alike — and the restoration operations
themselves succeed, `main` attempts every restoration step
(`disable_raw_mode`, leaving the alternate screen and disabling mouse
capture, `show_cursor`) before returning; a failing setup step instead
propagates its error without any restoration being attempted. -/
theorem main_restores_after_setup (ok : TermOp → Bool) (res : Except ℕ Unit)
    (h1 : ok TermOp.enableRawMode = true)
    (h2 : ok TermOp.enterAltScreenMouse = true)
    (h3 : ok TermOp.terminalNew = true)
    (h4 : ok TermOp.disableRawMode = true)
    (h5 : ok TermOp.leaveAltScreenMouse = true)
    (h6 : ok TermOp.showCursor = true) :
    MainEv.op TermOp.disableRawMode ∈ (main ok res).1 ∧
    MainEv.op TermOp.leaveAltScreenMouse ∈ (main ok res).1 ∧
    MainEv.op TermOp.showCursor ∈ (main ok res).1 ∧
    (main ok res).2 = Except.ok () := by
  cases res <;> simp [main, h1, h2, h3, h4, h5, h6]

/-- Witness for the amended C7 at an all-succeeding oracle with a normal
quit. -/
theorem main_restores_after_setup_witness :
    ((fun _ : TermOp => true) TermOp.enableRawMode = true) ∧
    (MainEv.op TermOp.disableRawMode ∈ (main (fun _ => true) (Except.ok ())).1 ∧
      MainEv.op TermOp.leaveAltScreenMouse ∈ (main (fun _ => true) (Except.ok ())).1 ∧
      MainEv.op TermOp.showCursor ∈ (main (fun _ => true) (Except.ok ())).1 ∧
      (main (fun _ => true) (Except.ok ())).2 = Except.ok ()) :=
  ⟨rfl, main_restores_after_setup (fun _ => true) (Except.ok ()) rfl rfl rfl rfl rfl rfl⟩

/-- C10: when setup and teardown succeed, an error returned by `run_app` is
printed and swallowed — `main` still returns `Ok(())` after performing the
restoration steps — and, for any oracle and any `run_app` result, `main`
returns an error only when some terminal operation itself failed. -/
theorem run_app_error_not_propagated (ok : TermOp → Bool) (e : ℕ)
    (h1 : ok TermOp.enableRawMode = true)
    (h2 : ok TermOp.enterAltScreenMouse = true)
    (h3 : ok TermOp.terminalNew = true)
    (h4 : ok TermOp.disableRawMode = true)
    (h5 : ok TermOp.leaveAltScreenMouse = true)
    (h6 : ok TermOp.showCursor = true) :
    (main ok (Except.error e)).2 = Except.ok () ∧
    MainEv.printedErr ∈ (main ok (Except.error e)).1 ∧
    MainEv.op TermOp.disableRawMode ∈ (main ok (Except.error e)).1 ∧
    ∀ (ok2 : TermOp → Bool) (res : Except ℕ Unit) (o : TermOp),
      (main ok2 res).2 = Except.error o → ok2 o = false := by
  refine ⟨?_, ?_, ?_, ?_⟩
  · simp [main, h1, h2, h3, h4, h5, h6]
  · simp [main, h1, h2, h3, h4, h5, h6]
  · simp [main, h1, h2, h3, h4, h5, h6]
  · intro ok2 res o
    unfold main
    split_ifs with g1 g2 g3 g4 g5 g6
    all_goals cases res
    all_goals simp_all
    all_goals rintro rfl
    all_goals assumption

/-- Witness for C10 at an all-succeeding oracle and a failing event loop. -/
theorem run_app_error_not_propagated_witness :
    ((fun _ : TermOp => true) TermOp.enableRawMode = true) ∧
    (main (fun _ => true) (Except.error 7)).2 = Except.ok () ∧
    MainEv.printedErr ∈ (main (fun _ => true) (Except.error 7)).1 :=
  ⟨rfl,
   (run_app_error_not_propagated (fun _ => true) 7 rfl rfl rfl rfl rfl rfl).1,
   (run_app_error_not_propagated (fun _ => true) 7 rfl rfl rfl rfl rfl rfl).2.1⟩

end Chart
